import Mathlib

/-!
Shallow embedding of the `pubcrawl` publish/subscribe library
(src/Publisher.ts, src/Store.ts, src/Network.ts, src/Client.ts,
src/TypedMap.ts), together with proofs settling the specification
claims about it.

Modelling decisions, each traceable to the source:

* A subscriber callback is identified by a `Nat`.  `Publisher` stores its
  subscribers in a JavaScript `Set` (`#subscribers = new Set(...)`); we model
  the ECMAScript OrderedSet exactly: an ordered list of slots where
  `Set.prototype.delete` replaces the entry by an EMPTY slot (`none`), so that
  an active `forEach` iteration — which walks the entry list by index,
  re-reading its length each step and skipping empty slots — sees exactly the
  mutations the ECMAScript specification prescribes (elements added during
  iteration are visited; elements deleted before being visited are skipped).

* `Publisher.publish` runs `this.#subscribers.forEach((cb) => cb(...params))`.
  A callback is an arbitrary function and may re-enter the publisher through
  `subscribe`/unsubscribe tokens; we model the re-entrant behaviour of a
  callback by an environment `env : Nat → List Action` giving the actions the
  callback performs on this publisher when invoked.  Since a callback that
  keeps adding fresh subscribers also makes the JavaScript `forEach` loop run
  unboundedly, the iteration takes explicit fuel; every terminating JavaScript
  run is reproduced by any sufficiently large fuel, and cutting the fuel short
  models a callback raising mid-iteration (the exception propagates, the
  remaining callbacks are not invoked).

* `publish` returns, besides the final publisher, the invocation log: the
  sequence of `(callback id, argument)` pairs, one per callback invocation, in
  temporal order.  All callbacks of one publish receive the identical
  argument value, mirroring the spread of the same `params`.

* `TypedMap` wraps a JavaScript `Map`; we model it as an insertion-ordered
  association list with update-in-place `set`, which is exactly the observable
  behaviour of `Map` with `PropertyKey`s modelled as `Nat`.

* `Network` and `Client` combine publishers; their single mutation entry
  points (`publish` / `set`) run per-key subscribers first and followers
  second, which the model mirrors by concatenating the two invocation logs in
  that order.  At registry level the claims concern non-re-entrant callbacks,
  so the registry operations instantiate the callback environment with
  `pureEnv` (callbacks that do not mutate the publisher); re-entrant mutation
  is analysed at the `Publisher` level.
-/

namespace Pubcrawl

/-- An action a subscriber callback may perform on the publisher that is
currently notifying it: re-entrant `subscribe` of a callback, or invocation of
an unsubscribe token for a callback. -/
inductive Action where
  | sub (c : Nat)
  | unsub (c : Nat)
deriving DecidableEq, Repr

/-- Model of `Publisher` from src/Publisher.ts: its one field `#subscribers` is a
JavaScript `Set` of callbacks, modelled as the ECMAScript OrderedSet entry
list; a `none` slot is an entry emptied by `Set.prototype.delete`. -/
structure Publisher where
  slots : List (Option Nat)
deriving DecidableEq, Repr

/-- Membership in the subscriber set (an ECMAScript `Set` ignores empty
slots). -/
def Publisher.has (p : Publisher) (c : Nat) : Bool :=
  p.slots.contains (some c)

/-- Model of `Set.prototype.add`: append the value unless an equal non-empty entry is
already present. -/
def Publisher.add (p : Publisher) (c : Nat) : Publisher :=
  if p.has c then p else ⟨p.slots ++ [some c]⟩

/-- Model of `Set.prototype.delete` on the entry list: the first slot holding the value
is replaced by an EMPTY slot (the list keeps its length, as in the ECMAScript
specification, so an active `forEach` index stays aligned). -/
def eraseSlot : List (Option Nat) → Nat → List (Option Nat)
  | [], _ => []
  | o :: rest, c => if o = some c then none :: rest else o :: eraseSlot rest c

/-- The effect of invoking the unsubscribe token for callback `c`:
`this.#subscribers.delete(cb)`. -/
def Publisher.delete (p : Publisher) (c : Nat) : Publisher :=
  ⟨eraseSlot p.slots c⟩

/-- Model of `Publisher.subscribe`: `this.#subscribers.add(cb)`; the returned token is
`() => this.#subscribers.delete(cb)`, modelled by `Publisher.delete`. -/
def Publisher.subscribe (p : Publisher) (c : Nat) : Publisher :=
  p.add c

/-- Model of `Publisher.clear`: `this.#subscribers.clear()`. -/
def Publisher.clear (_p : Publisher) : Publisher :=
  ⟨[]⟩

/-- Apply one re-entrant action of a running callback to the publisher. -/
def applyAction (p : Publisher) : Action → Publisher
  | .sub c => p.subscribe c
  | .unsub c => p.delete c

/-- Apply the actions a callback performs, in order. -/
def applyActions (p : Publisher) (acts : List Action) : Publisher :=
  acts.foldl applyAction p

/-- The ECMAScript `Set.prototype.forEach` loop behind
`Publisher.publish(...params)`: walk the entry list by index, re-reading the
(live) list each step; an empty slot is skipped; invoking callback `c` appends
`(c, args)` to the invocation log and applies the callback's re-entrant
actions to the publisher before the next index is examined. -/
def publishLoop (env : Nat → List Action) (args : α) :
    Nat → Nat → Publisher → List (Nat × α) → Publisher × List (Nat × α)
  | 0, _, p, log => (p, log)
  | fuel + 1, i, p, log =>
    match p.slots[i]? with
    | none => (p, log)
    | some none => publishLoop env args fuel (i + 1) p log
    | some (some c) =>
        publishLoop env args fuel (i + 1) (applyActions p (env c)) (log ++ [(c, args)])

/-- Model of `Publisher.publish(...params)`: notify the subscribers via the live
`forEach` loop, starting at index 0 with an empty log. -/
def Publisher.publish (p : Publisher) (env : Nat → List Action) (args : α)
    (fuel : Nat) : Publisher × List (Nat × α) :=
  publishLoop env args fuel 0 p []

/-- The environment of callbacks that do not mutate the publisher they are
subscribed to (plain observer callbacks). -/
def pureEnv : Nat → List Action := fun _ => []

/-- Well-formedness, maintained by the ECMAScript `Set` operations: no
callback occupies two non-empty slots. -/
def Publisher.wf (p : Publisher) : Prop :=
  (p.slots.filterMap id).Nodup

instance (p : Publisher) : Decidable p.wf :=
  inferInstanceAs (Decidable (p.slots.filterMap id).Nodup)

/-! ## TypedMap (src/TypedMap.ts)

`TypedMap` wraps a JavaScript `Map<PropertyKey, any>`; keys are modelled as
`Nat` and the map as its insertion-ordered entry list.  `set` updates an
existing key in place and appends a new one; `get` returns the entry or
`none`; `has` tests membership. -/

/-- Model of `Map.prototype.get`, on the insertion-ordered entry list. -/
def mapGet : List (Nat × β) → Nat → Option β
  | [], _ => none
  | (k, v) :: rest, key => if k = key then some v else mapGet rest key

/-- Model of `Map.prototype.set`: update in place when the key exists, append
otherwise. -/
def mapSet : List (Nat × β) → Nat → β → List (Nat × β)
  | [], key, v => [(key, v)]
  | (k, w) :: rest, key, v =>
      if k = key then (k, v) :: rest else (k, w) :: mapSet rest key v

/-- Model of `Map.prototype.has`. -/
def mapHas (m : List (Nat × β)) (key : Nat) : Bool :=
  (mapGet m key).isSome

/-! ## Network (src/Network.ts) -/

/-- One callback invocation performed by a registry mutation, in temporal
order: either a per-key subscriber called with the published arguments, or a
follower called with the key and the arguments. -/
inductive NetEvent (α : Type) where
  | toSub (c : Nat) (args : α)
  | toFollower (c : Nat) (key : Nat) (args : α)
deriving DecidableEq, Repr

/-- Model of `Network`: `#publishers`, a `TypedMap` of key → `Publisher`, and
`#followers`, one extra `Publisher` whose callbacks receive
`(key, ...args)`. -/
structure Network where
  publishers : List (Nat × Publisher)
  followers : Publisher
deriving DecidableEq, Repr

/-- The freshly constructed `new Network()`. -/
def Network.empty : Network :=
  ⟨[], ⟨[]⟩⟩

/-- Model of `Network.subscribe(key, cb)`: when no publisher exists for the key, create
one, subscribe `cb` on it and register it in the map; otherwise subscribe on
the existing publisher.  The returned token unsubscribes `cb` from that key's
publisher. -/
def Network.subscribe (n : Network) (key c : Nat) : Network :=
  if mapHas n.publishers key then
    match mapGet n.publishers key with
    | some pub => { n with publishers := mapSet n.publishers key (pub.subscribe c) }
    | none => n
  else
    { n with publishers := mapSet n.publishers key ((Publisher.mk []).subscribe c) }

/-- The effect of the token returned by `Network.subscribe(key, cb)`:
`delete cb` on that key's publisher. -/
def Network.unsub (n : Network) (key c : Nat) : Network :=
  match mapGet n.publishers key with
  | some pub => { n with publishers := mapSet n.publishers key (pub.delete c) }
  | none => n

/-- Model of `Network.publish(event, ...args)`: look the key up — absent means the
optional-chained `publisher?.publish(...args)` does nothing and no publisher
is created — then always notify the followers with `(event, ...args)`.
Returns the resulting network and the invocation log, per-key subscriber
calls first, follower calls second, exactly as the two statements execute. -/
def Network.publish (n : Network) (key : Nat) (args : α) :
    Network × List (NetEvent α) :=
  match mapGet n.publishers key with
  | none =>
      let f := n.followers.publish pureEnv (key, args) n.followers.slots.length
      ({ n with followers := f.1 },
        f.2.map (fun e => NetEvent.toFollower e.1 key args))
  | some pub =>
      let s := pub.publish pureEnv args pub.slots.length
      let f := n.followers.publish pureEnv (key, args) n.followers.slots.length
      ({ publishers := mapSet n.publishers key s.1, followers := f.1 },
        s.2.map (fun e => NetEvent.toSub e.1 e.2)
          ++ f.2.map (fun e => NetEvent.toFollower e.1 key args))

/-- Model of `Network.follow(cb)`: subscribe on the followers publisher; the token
unsubscribes from it. -/
def Network.follow (n : Network) (c : Nat) : Network :=
  { n with followers := n.followers.subscribe c }

/-- Model of `Network.clear(key)`: `this.#publishers.get(key)?.clear()` — clear that
key's publisher when it exists; the map entry itself stays. -/
def Network.clear (n : Network) (key : Nat) : Network :=
  match mapGet n.publishers key with
  | some pub => { n with publishers := mapSet n.publishers key pub.clear }
  | none => n

/-- Model of `Network.fullClear()`: clear the publisher map and the followers. -/
def Network.fullClear (n : Network) : Network :=
  ⟨[], n.followers.clear⟩

/-! ## Store (src/Store.ts) -/

/-- Model of `Store`: one internal `Publisher` plus the retained `#value`, which is
`undefined` (`none`) until set, unless an initial value was passed to the
constructor. -/
structure Store (α : Type) where
  publisher : Publisher
  value : Option α
deriving DecidableEq, Repr

/-- Model of `Store.get`: return the retained value (`undefined` when never set). -/
def Store.get (s : Store α) : Option α :=
  s.value

/-- Model of `Store.set(value)`: first overwrite `this.#value`, then publish the value
on the internal publisher.  The fuel bounds the notification loop exactly as
in `Publisher.publish`; a fuel below the subscriber count models the
notification aborting partway (a subscriber raising). -/
def Store.set (s : Store α) (v : α) (fuel : Nat) : Store α × List (Nat × α) :=
  let s1 : Store α := { s with value := some v }
  let r := s1.publisher.publish pureEnv v fuel
  ({ s1 with publisher := r.1 }, r.2)

/-- Model of `Store.subscribe(cb)`: delegate to the internal publisher; the token
deletes `cb` from it. -/
def Store.subscribe (s : Store α) (c : Nat) : Store α :=
  { s with publisher := s.publisher.subscribe c }

/-! ## Client (src/Client.ts) -/

/-- Model of `Client`: `#stores`, a `TypedMap` of key → `Store`, and `#followers`, a
`Publisher` whose callbacks receive `(key, value)`. -/
structure Client (α : Type) where
  stores : List (Nat × Store α)
  followers : Publisher
deriving DecidableEq, Repr

/-- The freshly constructed `new Client()`. -/
def Client.empty : Client α :=
  ⟨[], ⟨[]⟩⟩

/-- Model of `Client.get(key)`: `this.#stores.get(key)?.get()` — `undefined` when no
store exists for the key, otherwise that store's retained value (itself
possibly `undefined`). -/
def Client.get (cl : Client α) (key : Nat) : Option α :=
  (mapGet cl.stores key).bind Store.get

/-- Model of `Client.set(key, data)`: when a store exists for the key, `set` it
(notifying its subscribers); otherwise create a store initialized directly
with the value — its subscribers are not notified, it has none — and register
it.  Either way, afterwards publish `(key, data)` to the followers.  Returns
the resulting client and the invocation log, per-key subscriber calls first,
follower calls second. -/
def Client.set (cl : Client α) (key : Nat) (v : α) :
    Client α × List (NetEvent α) :=
  let step : List (Nat × Store α) × List (Nat × α) :=
    if mapHas cl.stores key then
      match mapGet cl.stores key with
      | some st =>
          let r := st.set v st.publisher.slots.length
          (mapSet cl.stores key r.1, r.2)
      | none => (cl.stores, [])
    else
      (mapSet cl.stores key ⟨⟨[]⟩, some v⟩, [])
  let f := cl.followers.publish pureEnv (key, v) cl.followers.slots.length
  ({ stores := step.1, followers := f.1 },
    step.2.map (fun e => NetEvent.toSub e.1 e.2)
      ++ f.2.map (fun e => NetEvent.toFollower e.1 key v))

/-- Model of `Client.subscribe(key, cb)`: subscribe on the existing store, or create an
empty store (no initial value), subscribe on it and register it.  The token
deletes `cb` from that store's publisher. -/
def Client.subscribe (cl : Client α) (key c : Nat) : Client α :=
  if mapHas cl.stores key then
    match mapGet cl.stores key with
    | some st => { cl with stores := mapSet cl.stores key (st.subscribe c) }
    | none => cl
  else
    { cl with stores := mapSet cl.stores key ((Store.mk ⟨[]⟩ none).subscribe c) }

/-- The effect of the token returned by `Client.subscribe(key, cb)`. -/
def Client.unsub (cl : Client α) (key c : Nat) : Client α :=
  match mapGet cl.stores key with
  | some st => { cl with stores := mapSet cl.stores key ⟨st.publisher.delete c, st.value⟩ }
  | none => cl

/-- Model of `Client.follow(cb)`: subscribe on the followers publisher. -/
def Client.follow (cl : Client α) (c : Nat) : Client α :=
  { cl with followers := cl.followers.subscribe c }

/-! ## Operation traces

To state "before any set on this key" / "no later publish invokes f", the
API calls a user can make between the interesting events are reified as
operation lists and replayed over the model. -/

/-- The state-mutating calls available on a `Publisher`: `subscribe(cb)`,
invoking an unsubscribe token for `cb`, and `clear()`.  (`publish` with
non-mutating callbacks leaves the subscriber set unchanged.) -/
inductive POp where
  | sub (c : Nat)
  | unsub (c : Nat)
  | clear
deriving DecidableEq, Repr

/-- Replay a sequence of `Publisher` calls. -/
def runPOps : Publisher → List POp → Publisher
  | p, [] => p
  | p, POp.sub c :: rest => runPOps (p.subscribe c) rest
  | p, POp.unsub c :: rest => runPOps (p.delete c) rest
  | p, POp.clear :: rest => runPOps p.clear rest

/-- The state-mutating calls available on a `Client`: `set(key, value)`,
`subscribe(key, cb)`, invoking an unsubscribe token, and `follow(cb)`. -/
inductive COp (α : Type) where
  | set (k : Nat) (v : α)
  | sub (k c : Nat)
  | unsub (k c : Nat)
  | follow (c : Nat)
deriving DecidableEq, Repr

/-- Whether the call is a `set` on key `k`. -/
def COp.setsKey (k : Nat) : COp α → Bool
  | .set k' _ => k' = k
  | _ => false

/-- Replay a sequence of `Client` calls. -/
def runCOps : Client α → List (COp α) → Client α
  | cl, [] => cl
  | cl, COp.set k v :: rest => runCOps (cl.set k v).1 rest
  | cl, COp.sub k c :: rest => runCOps (cl.subscribe k c) rest
  | cl, COp.unsub k c :: rest => runCOps (cl.unsub k c) rest
  | cl, COp.follow c :: rest => runCOps (cl.follow c) rest

/-! ## Helper lemmas -/

/-- With non-mutating callbacks, the live `forEach` loop from index `i`
visits exactly the non-empty slots from position `i` on, in order, leaves the
publisher unchanged, and hands every callback the same argument value. -/
theorem publishLoop_pure (args : α) :
    ∀ (fuel i : Nat) (p : Publisher) (log : List (Nat × α)),
      p.slots.length - i ≤ fuel →
      publishLoop pureEnv args fuel i p log =
        (p, log ++ ((p.slots.drop i).filterMap id).map (fun c => (c, args))) := by
  intro fuel
  induction fuel with
  | zero =>
      intro i p log h
      have hle : p.slots.length ≤ i := by omega
      simp [publishLoop, List.drop_eq_nil_of_le hle]
  | succ fuel ih =>
      intro i p log h
      rw [publishLoop]
      cases hg : p.slots[i]? with
      | none =>
          have hle : p.slots.length ≤ i := List.getElem?_eq_none_iff.mp hg
          simp [List.drop_eq_nil_of_le hle]
      | some o =>
          have hi : i < p.slots.length := (List.getElem?_eq_some_iff.mp hg).1
          have hget : p.slots[i] = o := (List.getElem?_eq_some_iff.mp hg).2
          have hdrop : p.slots.drop i = o :: p.slots.drop (i + 1) := by
            rw [List.drop_eq_getElem_cons hi, hget]
          cases o with
          | none =>
              rw [ih (i + 1) p log (by omega), hdrop]
              simp
          | some c =>
              change publishLoop pureEnv args fuel (i + 1)
                (applyActions p (pureEnv c)) (log ++ [(c, args)]) = _
              have happ : applyActions p (pureEnv c) = p := rfl
              rw [happ, ih (i + 1) p (log ++ [(c, args)]) (by omega), hdrop]
              simp

/-- Evaluation of `Publisher.publish` with non-mutating callbacks and sufficient fuel:
state unchanged, log = the registered callbacks in slot (insertion) order,
each paired with the published argument. -/
theorem publish_pure (p : Publisher) (env : Nat → List Action) (args : α)
    (fuel : Nat) (henv : ∀ c, env c = []) (hfuel : p.slots.length ≤ fuel) :
    p.publish env args fuel =
      (p, (p.slots.filterMap id).map (fun c => (c, args))) := by
  have henv' : env = pureEnv := funext henv
  rw [Publisher.publish, henv', publishLoop_pure args fuel 0 p [] (by omega)]
  simp

/-- Registration check: `Publisher.has` is membership in the non-empty slots. -/
theorem has_iff_mem (p : Publisher) (c : Nat) :
    p.has c = true ↔ c ∈ p.slots.filterMap id := by
  simp [Publisher.has]

/-- Reading `mapGet` after `mapSet` at the same key. -/
theorem mapGet_mapSet_self (m : List (Nat × β)) (k : Nat) (v : β) :
    mapGet (mapSet m k v) k = some v := by
  induction m with
  | nil => simp [mapSet, mapGet]
  | cons hd tl ih =>
      obtain ⟨k', w⟩ := hd
      by_cases h : k' = k
      · subst h; simp [mapSet, mapGet]
      · simp [mapSet, mapGet, h, ih]

/-- Reading `mapGet` after `mapSet` at a different key is unchanged. -/
theorem mapGet_mapSet_ne (m : List (Nat × β)) (k k' : Nat) (v : β)
    (h : k ≠ k') : mapGet (mapSet m k v) k' = mapGet m k' := by
  induction m with
  | nil => simp [mapSet, mapGet, h]
  | cons hd tl ih =>
      obtain ⟨k0, w⟩ := hd
      by_cases h0 : k0 = k
      · subst h0; simp [mapSet, mapGet, h]
      · simp only [mapSet, if_neg h0, mapGet]
        by_cases h1 : k0 = k'
        · simp [h1]
        · simp [h1, ih]

/-- In a concatenated invocation log where no event of the first part
satisfies `Q` and no event of the second part satisfies `P`, every
`P`-event's index is strictly below every `Q`-event's index. -/
theorem append_index_lt {A : Type} (xs ys : List A) (P Q : A → Prop)
    (hxs : ∀ a ∈ xs, ¬ Q a) (hys : ∀ a ∈ ys, ¬ P a) :
    ∀ (i j : Nat) (x y : A), (xs ++ ys)[i]? = some x → P x →
      (xs ++ ys)[j]? = some y → Q y → i < j := by
  intro i j x y hi hx hj hy
  have hilt : i < xs.length := by
    by_contra hle
    push_neg at hle
    rw [List.getElem?_append_right hle] at hi
    have hmem : x ∈ ys := by
      obtain ⟨hb, rfl⟩ := List.getElem?_eq_some_iff.mp hi
      exact List.getElem_mem hb
    exact hys x hmem hx
  have hjge : xs.length ≤ j := by
    by_contra hlt
    push_neg at hlt
    rw [List.getElem?_append_left hlt] at hj
    have hmem : y ∈ xs := by
      obtain ⟨hb, rfl⟩ := List.getElem?_eq_some_iff.mp hj
      exact List.getElem_mem hb
    exact hxs y hmem hy
  omega

/-- Producing an index witness from membership. -/
theorem exists_getElem?_of_mem {A : Type} {l : List A} {a : A} (h : a ∈ l) :
    ∃ i : Nat, l[i]? = some a := by
  obtain ⟨i, hi, rfl⟩ := List.mem_iff_getElem.mp h
  exact ⟨i, List.getElem?_eq_some_iff.mpr ⟨hi, rfl⟩⟩

/-- Erasure via `eraseSlot` on a list not holding the value leaves it unchanged. -/
theorem eraseSlot_of_not_mem :
    ∀ (l : List (Option Nat)) (c : Nat), some c ∉ l → eraseSlot l c = l := by
  intro l c h
  induction l with
  | nil => rfl
  | cons o rest ih =>
      rw [eraseSlot]
      have ho : o ≠ some c := fun hc => h (hc ▸ List.mem_cons_self o rest)
      rw [if_neg ho, ih (fun hm => h (List.mem_cons_of_mem o hm))]

/-- Erasure only blanks slots: the surviving non-empty slots are a
sublist of the original ones. -/
theorem filterMap_eraseSlot_sublist :
    ∀ (l : List (Option Nat)) (c : Nat),
      ((eraseSlot l c).filterMap id).Sublist (l.filterMap id) := by
  intro l c
  induction l with
  | nil => simp [eraseSlot]
  | cons o rest ih =>
      rw [eraseSlot]
      by_cases ho : o = some c
      · subst ho
        rw [if_pos rfl]
        simp only [List.filterMap_cons, id]
        exact (List.sublist_cons_self c _).trans (List.Sublist.cons₂ c (List.Sublist.refl _))
      · rw [if_neg ho]
        cases o with
        | none => simpa using ih
        | some g => simpa using ih

/-- After erasing `c` from a duplicate-free slot list, `c` is gone. -/
theorem not_mem_eraseSlot_self :
    ∀ (l : List (Option Nat)) (c : Nat), (l.filterMap id).Nodup →
      some c ∉ eraseSlot l c := by
  intro l c hnd
  induction l with
  | nil => simp [eraseSlot]
  | cons o rest ih =>
      rw [eraseSlot]
      by_cases ho : o = some c
      · subst ho
        rw [if_pos rfl]
        intro hmem
        rcases List.mem_cons.mp hmem with h | h
        · exact Option.noConfusion h
        · have : c ∈ rest.filterMap id := by simpa using h
          simp only [List.filterMap_cons, id] at hnd
          exact (List.nodup_cons.mp hnd).1 this
      · rw [if_neg ho]
        intro hmem
        rcases List.mem_cons.mp hmem with h | h
        · exact ho h.symm
        · have hrest : (rest.filterMap id).Nodup := by
            cases o with
            | none => simpa using hnd
            | some g =>
                simp only [List.filterMap_cons, id] at hnd
                exact (List.nodup_cons.mp hnd).2
          exact ih hrest h

/-- Erasing one value never disturbs membership of another. -/
theorem mem_eraseSlot_iff (l : List (Option Nat)) (c g : Nat) (h : g ≠ c) :
    some g ∈ eraseSlot l c ↔ some g ∈ l := by
  induction l with
  | nil => simp [eraseSlot]
  | cons o rest ih =>
      rw [eraseSlot]
      by_cases ho : o = some c
      · subst ho
        rw [if_pos rfl]
        simp only [List.mem_cons]
        constructor
        · rintro (hq | hq)
          · exact absurd hq (by simp)
          · exact Or.inr hq
        · rintro (hq | hq)
          · exact absurd (Option.some.inj hq) h
          · exact Or.inr hq
      · rw [if_neg ho]
        simp [ih]

/-- Adding via `Publisher.add` keeps the slot list duplicate-free. -/
theorem wf_add (p : Publisher) (c : Nat) (h : p.wf) : (p.add c).wf := by
  rw [Publisher.add]
  by_cases hc : p.has c = true
  · rw [if_pos hc]; exact h
  · rw [if_neg hc]
    have hnot : c ∉ p.slots.filterMap id := fun hm => hc ((has_iff_mem p c).mpr hm)
    show ((p.slots ++ [some c]).filterMap id).Nodup
    simp only [List.filterMap_append, List.filterMap_cons, id, List.filterMap_nil]
    refine List.Nodup.append h (List.nodup_singleton c) ?_
    intro x hx hxc
    rw [List.mem_singleton] at hxc
    subst hxc
    exact hnot hx

/-- Deleting via `Publisher.delete` keeps the slot list duplicate-free. -/
theorem wf_delete (p : Publisher) (c : Nat) (h : p.wf) : (p.delete c).wf :=
  List.Nodup.sublist (filterMap_eraseSlot_sublist p.slots c) h

/-- Adding makes (or keeps) the callback registered. -/
theorem has_add_self (p : Publisher) (c : Nat) : (p.add c).has c = true := by
  rw [Publisher.add]
  by_cases hc : p.has c = true
  · rw [if_pos hc]; exact hc
  · rw [if_neg hc]
    show (p.slots ++ [some c]).contains (some c) = true
    simp

/-- On a well-formed publisher the unsubscribe token removes its callback. -/
theorem has_delete_self (p : Publisher) (c : Nat) (h : p.wf) :
    (p.delete c).has c = false := by
  rw [Publisher.delete]
  have := not_mem_eraseSlot_self p.slots c h
  show (eraseSlot p.slots c).contains (some c) = false
  simpa using this

/-- Adding a different callback does not change a callback's registration. -/
theorem has_add_ne (p : Publisher) (c g : Nat) (h : c ≠ g) :
    (p.add g).has c = p.has c := by
  rw [Publisher.add]
  by_cases hg : p.has g = true
  · rw [if_pos hg]
  · rw [if_neg hg]
    show (p.slots ++ [some g]).contains (some c) = p.slots.contains (some c)
    simp [h]

/-- A callback registered after a delete was registered before it. -/
theorem has_of_has_delete (p : Publisher) (c g : Nat)
    (h : (p.delete g).has c = true) : p.has c = true := by
  rw [has_iff_mem] at h ⊢
  exact (filterMap_eraseSlot_sublist p.slots g).mem h

/-- A callback that is not registered stays unregistered under any sequence
of calls that never subscribes it. -/
theorem has_runPOps_false (f : Nat) :
    ∀ (ops : List POp) (p : Publisher), p.has f = false → POp.sub f ∉ ops →
      (runPOps p ops).has f = false := by
  intro ops
  induction ops with
  | nil => intro p h _; exact h
  | cons op rest ih =>
      intro p h hops
      have hrest : POp.sub f ∉ rest := fun hm => hops (List.mem_cons_of_mem op hm)
      cases op with
      | sub c =>
          have hc : f ≠ c := fun hfc =>
            hops (hfc ▸ List.mem_cons_self (POp.sub f) rest)
          rw [runPOps]
          exact ih ((p.subscribe c)) (by rw [Publisher.subscribe, has_add_ne p f c hc]; exact h) hrest
      | unsub c =>
          rw [runPOps]
          refine ih (p.delete c) ?_ hrest
          cases hd : (p.delete c).has f with
          | false => rfl
          | true => exact absurd (has_of_has_delete p f c hd) (by simp [h])
      | clear =>
          rw [runPOps]
          refine ih p.clear ?_ hrest
          simp [Publisher.clear, Publisher.has]

/-- The callbacks a pure publish with full fuel invokes, in order: exactly
the registered ones. -/
theorem publish_pure_fst (p : Publisher) (args : α) :
    ((p.publish pureEnv args p.slots.length).2).map Prod.fst = p.slots.filterMap id := by
  rw [publish_pure p pureEnv args _ (fun _ => rfl) (le_refl _)]
  simp only [List.map_map]
  have hcomp : (Prod.fst ∘ fun c : Nat => (c, args)) = id := rfl
  rw [hcomp, List.map_id]

/-- Whatever the callbacks do and however far the fuel reaches, every
invocation of one publish carries the published argument value. -/
theorem publishLoop_args_inv (env : Nat → List Action) (args : α) :
    ∀ (fuel i : Nat) (p : Publisher) (log : List (Nat × α)),
      ∀ e ∈ (publishLoop env args fuel i p log).2, e ∈ log ∨ e.2 = args := by
  intro fuel
  induction fuel with
  | zero => intro i p log e he; exact Or.inl he
  | succ fuel ih =>
      intro i p log e he
      rw [publishLoop] at he
      cases hg : p.slots[i]? with
      | none => rw [hg] at he; exact Or.inl he
      | some o =>
          rw [hg] at he
          cases o with
          | none => exact ih (i + 1) p log e he
          | some c =>
              rcases ih (i + 1) _ (log ++ [(c, args)]) e he with hm | hm
              · rcases List.mem_append.mp hm with hm' | hm'
                · exact Or.inl hm'
                · right
                  rw [List.mem_singleton] at hm'
                  rw [hm']
              · exact Or.inr hm

/-- A registered callback's invocation appears in the log of a pure publish
with full fuel. -/
theorem mem_pure_publish_log (p : Publisher) (c : Nat) (args : α)
    (h : p.has c = true) :
    (c, args) ∈ (p.publish pureEnv args p.slots.length).2 := by
  rw [publish_pure p pureEnv args _ (fun _ => rfl) (le_refl _)]
  exact List.mem_map.mpr ⟨c, (has_iff_mem p c).mp h, rfl⟩

/-- In `A ++ B` with `x` only in `A` and `y` only in `B`, every index of `x`
is strictly below every index of `y`, and both occur. -/
theorem append_order_mem {T : Type} (A B : List T) (x y : T)
    (hA : ∀ e ∈ A, e ≠ y) (hB : ∀ e ∈ B, e ≠ x)
    (hx : x ∈ A) (hy : y ∈ B) :
    (∀ i j : Nat, (A ++ B)[i]? = some x → (A ++ B)[j]? = some y → i < j)
    ∧ (∃ i : Nat, (A ++ B)[i]? = some x)
    ∧ (∃ j : Nat, (A ++ B)[j]? = some y) := by
  refine ⟨?_, ?_, ?_⟩
  · intro i j hi hj
    exact append_index_lt A B (fun a => a = x) (fun a => a = y) hA hB i j x y hi rfl hj rfl
  · exact exists_getElem?_of_mem (List.mem_append_left B hx)
  · exact exists_getElem?_of_mem (List.mem_append_right A hy)

/-- Setting via `Client.set(k, v)` makes `get(k)` return `v`, whether the store for `k`
was created by this call or updated. -/
theorem client_get_set_self (cl : Client α) (k : Nat) (v : α) :
    (cl.set k v).1.get k = some v := by
  cases hg : mapGet cl.stores k with
  | none =>
      simp [Client.set, Client.get, mapHas, hg, mapGet_mapSet_self, Store.get]
  | some st =>
      simp [Client.set, Client.get, mapHas, hg, mapGet_mapSet_self, Store.set, Store.get]

/-- Setting via `Client.set` on one key leaves every other key's `get` unchanged. -/
theorem client_get_set_ne (cl : Client α) (k k' : Nat) (v : α) (h : k ≠ k') :
    (cl.set k v).1.get k' = cl.get k' := by
  cases hg : mapGet cl.stores k with
  | none =>
      simp [Client.set, Client.get, mapHas, hg, mapGet_mapSet_ne _ _ _ _ h]
  | some st =>
      simp [Client.set, Client.get, mapHas, hg, mapGet_mapSet_ne _ _ _ _ h]

/-- Subscribing via `Client.subscribe` never changes any retained value. -/
theorem client_get_subscribe (cl : Client α) (k c k' : Nat) :
    (cl.subscribe k c).get k' = cl.get k' := by
  by_cases hk : k = k'
  · subst hk
    cases hg : mapGet cl.stores k with
    | none =>
        simp [Client.subscribe, Client.get, mapHas, hg, mapGet_mapSet_self,
          Store.subscribe, Store.get]
    | some st =>
        simp [Client.subscribe, Client.get, mapHas, hg, mapGet_mapSet_self,
          Store.subscribe, Store.get]
  · cases hg : mapGet cl.stores k with
    | none =>
        simp [Client.subscribe, Client.get, mapHas, hg, mapGet_mapSet_ne _ _ _ _ hk]
    | some st =>
        simp [Client.subscribe, Client.get, mapHas, hg, mapGet_mapSet_ne _ _ _ _ hk]

/-- Invoking an unsubscribe token never changes any retained value. -/
theorem client_get_unsub (cl : Client α) (k c k' : Nat) :
    (cl.unsub k c).get k' = cl.get k' := by
  by_cases hk : k = k'
  · subst hk
    cases hg : mapGet cl.stores k with
    | none => simp [Client.unsub, hg]
    | some st =>
        simp [Client.unsub, Client.get, hg, mapGet_mapSet_self, Store.get]
  · cases hg : mapGet cl.stores k with
    | none => simp [Client.unsub, hg]
    | some st =>
        simp [Client.unsub, Client.get, hg, mapGet_mapSet_ne _ _ _ _ hk]

/-- Following via `Client.follow` touches only the followers publisher. -/
theorem client_get_follow (cl : Client α) (c k' : Nat) :
    (cl.follow c).get k' = cl.get k' := rfl

/-- A key whose value is unset stays unset under any sequence of calls that
never `set`s that key. -/
theorem client_get_runCOps_none (k : Nat) :
    ∀ (ops : List (COp α)) (cl : Client α), cl.get k = none →
      (∀ op ∈ ops, op.setsKey k = false) → (runCOps cl ops).get k = none := by
  intro ops
  induction ops with
  | nil => intro cl h _; exact h
  | cons op rest ih =>
      intro cl h hops
      have hrest : ∀ op' ∈ rest, COp.setsKey k op' = false :=
        fun op' hm => hops op' (List.mem_cons_of_mem op hm)
      have hop : op.setsKey k = false := hops op (List.mem_cons_self op rest)
      cases op with
      | set k' v =>
          have hk : k' ≠ k := by
            intro hkk
            rw [COp.setsKey, hkk] at hop
            simp at hop
          rw [runCOps]
          exact ih (cl.set k' v).1 (by rw [client_get_set_ne cl k' k v hk]; exact h) hrest
      | sub k' c =>
          rw [runCOps]
          exact ih (cl.subscribe k' c) (by rw [client_get_subscribe]; exact h) hrest
      | unsub k' c =>
          rw [runCOps]
          exact ih (cl.unsub k' c) (by rw [client_get_unsub]; exact h) hrest
      | follow c =>
          rw [runCOps]
          exact ih (cl.follow c) (by rw [client_get_follow]; exact h) hrest

/-! ## Claim theorems -/

/-- C8: `Publisher.publish(args...)` invokes every currently registered
callback synchronously, in the insertion order of the registrations (the
order of the non-empty slots), each with the identical argument value, and
leaves the subscriber set unchanged; with zero subscribers the invocation log
is empty (a no-op). -/
theorem publish_notifies_in_insertion_order (p : Publisher) (args : α)
    (fuel : Nat) (hfuel : p.slots.length ≤ fuel) :
    p.publish pureEnv args fuel =
      (p, (p.slots.filterMap id).map (fun c => (c, args))) :=
  publish_pure p pureEnv args fuel (fun _ => rfl) hfuel

/-- Witness for C8 at a concrete publisher: two registered callbacks (and one
emptied slot), both invoked in order with the published value. -/
theorem publish_notifies_in_insertion_order_witness :
    Publisher.publish ⟨[some 1, none, some 2]⟩ pureEnv (5 : Nat) 3 =
      (⟨[some 1, none, some 2]⟩, [(1, 5), (2, 5)]) :=
  (publish_notifies_in_insertion_order ⟨[some 1, none, some 2]⟩ (5 : Nat) 3
    (by decide)).trans (by decide)

/-- C5: after `u = C.subscribe(f)` and then `u()`, no later `C.publish(x)`
invokes `f`, whatever other subscribe/unsubscribe/clear calls (none of them
re-subscribing `f`) happen in between. -/
theorem unsubscribed_callback_never_invoked (p : Publisher) (f : Nat)
    (ops : List POp) (args : α) (hwf : p.wf) (hops : POp.sub f ∉ ops) :
    f ∉ ((runPOps ((p.subscribe f).delete f) ops).publish pureEnv args
          (runPOps ((p.subscribe f).delete f) ops).slots.length).2.map Prod.fst := by
  have h0 : ((p.subscribe f).delete f).has f = false :=
    has_delete_self (p.subscribe f) f (wf_add p f hwf)
  have h1 : (runPOps ((p.subscribe f).delete f) ops).has f = false :=
    has_runPOps_false f ops _ h0 hops
  rw [publish_pure_fst]
  intro hmem
  have h2 := (has_iff_mem _ f).mpr hmem
  rw [h1] at h2
  exact Bool.noConfusion h2

/-- Witness for C5: subscribe 7 next to an existing subscriber 5,
unsubscribe it, subscribe 5 again, publish — 7 is not invoked. -/
theorem unsubscribed_callback_never_invoked_witness :
    7 ∉ ((runPOps (((Publisher.mk [some 5]).subscribe 7).delete 7) [POp.sub 5]).publish
          pureEnv (0 : Nat)
          (runPOps (((Publisher.mk [some 5]).subscribe 7).delete 7) [POp.sub 5]).slots.length).2.map
        Prod.fst :=
  unsubscribed_callback_never_invoked (Publisher.mk [some 5]) 7 [POp.sub 5] 0
    (by decide) (by decide)

/-- C6: an unsubscribe token is idempotent — invoking it twice leaves the
channel exactly as invoking it once — and it deregisters exactly the callback
it was created for: that callback is gone and any other callback's
registration is untouched. -/
theorem unsubscribe_token_idempotent (p : Publisher) (f g : Nat)
    (hwf : p.wf) (hg : g ≠ f) :
    (p.delete f).delete f = p.delete f
    ∧ (p.delete f).has f = false
    ∧ (p.delete f).has g = p.has g := by
  refine ⟨?_, has_delete_self p f hwf, ?_⟩
  · show Publisher.mk (eraseSlot (eraseSlot p.slots f) f) = Publisher.mk (eraseSlot p.slots f)
    rw [eraseSlot_of_not_mem _ f (not_mem_eraseSlot_self p.slots f hwf)]
  · by_cases hm : some g ∈ p.slots
    · have h2 : some g ∈ eraseSlot p.slots f := (mem_eraseSlot_iff p.slots f g hg).mpr hm
      show (eraseSlot p.slots f).contains (some g) = p.slots.contains (some g)
      simp [hm, h2]
    · have h2 : some g ∉ eraseSlot p.slots f :=
        fun hc => hm ((mem_eraseSlot_iff p.slots f g hg).mp hc)
      show (eraseSlot p.slots f).contains (some g) = p.slots.contains (some g)
      simp [hm, h2]

/-- Witness for C6 on a two-subscriber channel. -/
theorem unsubscribe_token_idempotent_witness :
    ((Publisher.mk [some 1, some 2]).delete 1).delete 1 = (Publisher.mk [some 1, some 2]).delete 1
    ∧ ((Publisher.mk [some 1, some 2]).delete 1).has 1 = false
    ∧ ((Publisher.mk [some 1, some 2]).delete 1).has 2 = (Publisher.mk [some 1, some 2]).has 2 :=
  unsubscribe_token_idempotent (Publisher.mk [some 1, some 2]) 1 2 (by decide) (by decide)

/-- C9: subscribing the identical callback twice yields a single registration
(the `Set` deduplicates): the second subscribe leaves the channel unchanged,
a publish invokes the callback exactly once, and one token invocation removes
the callback entirely. -/
theorem duplicate_subscribe_single_registration (p : Publisher) (f : Nat)
    (args : α) (hwf : p.wf) :
    (p.subscribe f).subscribe f = p.subscribe f
    ∧ (((p.subscribe f).publish pureEnv args
          (p.subscribe f).slots.length).2.map Prod.fst).count f = 1
    ∧ ((p.subscribe f).delete f).has f = false := by
  have hwf' : (p.subscribe f).wf := wf_add p f hwf
  have hhas : (p.add f).has f = true := has_add_self p f
  refine ⟨?_, ?_, has_delete_self _ f hwf'⟩
  · show (p.add f).add f = p.add f
    rw [Publisher.add, if_pos hhas]
  · rw [publish_pure_fst]
    exact List.count_eq_one_of_mem hwf' ((has_iff_mem (p.subscribe f) f).mp hhas)

/-- Witness for C9 with callback 4 on a channel already holding 9. -/
theorem duplicate_subscribe_single_registration_witness :
    ((Publisher.mk [some 9]).subscribe 4).subscribe 4 = (Publisher.mk [some 9]).subscribe 4
    ∧ ((((Publisher.mk [some 9]).subscribe 4).publish pureEnv (0 : Nat)
          ((Publisher.mk [some 9]).subscribe 4).slots.length).2.map Prod.fst).count 4 = 1
    ∧ (((Publisher.mk [some 9]).subscribe 4).delete 4).has 4 = false :=
  duplicate_subscribe_single_registration (Publisher.mk [some 9]) 4 (0 : Nat) (by decide)

/-- C10: `Store.set(v)` overwrites the retained value before notifying, so
however far the notification gets (any fuel, modelling a subscriber raising
partway) the retained value is already `v`; every subscriber invocation of
that set carries `v`; and `Client.set(k, v)` on an existing cell likewise
leaves `get(k) = v`. -/
theorem set_overwrites_before_notifying (s : Store α) (v : α) (fuel : Nat)
    (cl : Client α) (k : Nat) (hk : mapHas cl.stores k = true) :
    (s.set v fuel).1.value = some v
    ∧ (∀ e ∈ (s.set v fuel).2, e.2 = v)
    ∧ (cl.set k v).1.get k = some v := by
  refine ⟨rfl, ?_, client_get_set_self cl k v⟩
  intro e he
  have he' : e ∈ (publishLoop pureEnv v fuel 0 s.publisher []).2 := he
  rcases publishLoop_args_inv pureEnv v fuel 0 s.publisher [] e he' with h | h
  · exact absurd h (List.not_mem_nil e)
  · exact h

/-- Witness for C10: fuel 0 models the notification aborting before any of
the subscribers ran; the value is already overwritten. -/
theorem set_overwrites_before_notifying_witness :
    ((Store.mk ⟨[some 2]⟩ (none : Option Nat)).set 7 0).1.value = some 7
    ∧ (∀ e ∈ ((Store.mk ⟨[some 2]⟩ (none : Option Nat)).set 7 0).2, e.2 = 7)
    ∧ ((Client.mk [(3, Store.mk ⟨[]⟩ (some 1))] ⟨[]⟩).set 3 7).1.get 3 = some 7 :=
  set_overwrites_before_notifying (Store.mk ⟨[some 2]⟩ (none : Option Nat)) 7 0
    (Client.mk [(3, Store.mk ⟨[]⟩ (some 1))] ⟨[]⟩) 3 (by decide)

/-- C1, counterexample: the claim says a publish notifies exactly the
subscribers present when it began.  On the channel `{1, 2}` where callback 1
invokes 2's unsubscribe token during the publish, callback 2 is registered
when the publish begins and yet is never invoked by it — `Set.forEach`
iterates live, not over a snapshot (and the unsubscribe *is* retroactive to
the publish in progress). -/
theorem snapshot_iteration_counterexample :
    (Publisher.mk [some 1, some 2]).has 2 = true
    ∧ ((Publisher.mk [some 1, some 2]).publish
        (fun c => if c = 1 then [Action.unsub 2] else []) (0 : Nat) 4).2.map Prod.fst = [1]
    ∧ (Publisher.mk [some 1]).has 2 = false
    ∧ ((Publisher.mk [some 1]).publish
        (fun c => if c = 1 then [Action.sub 2] else []) (0 : Nat) 4).2.map Prod.fst = [1, 2] := by
  decide

/-- C1, amended: iteration during a publish is live, not snapshot — a
not-yet-notified subscriber whose unsubscribe token an earlier callback
invokes during the publish is skipped by that very publish, and a callback
subscribed by an earlier callback during the publish is notified by that same
publish; so subscribe/unsubscribe during a publish does affect the publish in
progress. -/
theorem publish_live_iteration (c1 c2 : Nat) (args : α) (h : c1 ≠ c2) :
    ((Publisher.mk [some c1, some c2]).publish
        (fun c => if c = c1 then [Action.unsub c2] else []) args 4).2.map Prod.fst = [c1]
    ∧ ((Publisher.mk [some c1]).publish
        (fun c => if c = c1 then [Action.sub c2] else []) args 4).2.map Prod.fst = [c1, c2] := by
  have h' : c2 ≠ c1 := Ne.symm h
  constructor
  · simp [Publisher.publish, publishLoop, applyActions, applyAction,
      Publisher.delete, eraseSlot, Publisher.subscribe, Publisher.add,
      Publisher.has, h, h']
  · simp [Publisher.publish, publishLoop, applyActions, applyAction,
      Publisher.delete, eraseSlot, Publisher.subscribe, Publisher.add,
      Publisher.has, h, h']

/-- Witness for the amended C1 at callbacks 1 and 2. -/
theorem publish_live_iteration_witness :
    ((Publisher.mk [some 1, some 2]).publish
        (fun c => if c = 1 then [Action.unsub 2] else []) (0 : Nat) 4).2.map Prod.fst = [1]
    ∧ ((Publisher.mk [some 1]).publish
        (fun c => if c = 1 then [Action.sub 2] else []) (0 : Nat) 4).2.map Prod.fst = [1, 2] :=
  publish_live_iteration 1 2 (0 : Nat) (by decide)

/-- C2: publishing to a key with no channel invokes no per-key subscriber
(every logged event is a follower event), creates no channel (the publisher
map is untouched), and does not throw (`Network.publish` is total); and in
every case — channel present or absent — every currently registered follower
is invoked with the key and the published arguments. -/
theorem network_publish_absent_key (n : Network) (k : Nat) (args : α) :
    (mapHas n.publishers k = false →
      (n.publish k args).1.publishers = n.publishers
        ∧ ∀ e ∈ (n.publish k args).2, ∃ F, e = NetEvent.toFollower F k args)
    ∧ (∀ F, n.followers.has F = true →
        NetEvent.toFollower F k args ∈ (n.publish k args).2) := by
  constructor
  · intro h
    have hg : mapGet n.publishers k = none := by
      rw [mapHas] at h
      exact Option.not_isSome_iff_eq_none.mp (by simp [h])
    constructor
    · simp [Network.publish, hg]
    · intro e he
      simp only [Network.publish, hg] at he
      obtain ⟨ev, _, rfl⟩ := List.mem_map.mp he
      exact ⟨ev.1, rfl⟩
  · intro F hF
    have hmem : (F, (k, args)) ∈
        (n.followers.publish pureEnv (k, args) n.followers.slots.length).2 :=
      mem_pure_publish_log n.followers F (k, args) hF
    have hmap : NetEvent.toFollower F k args ∈
        ((n.followers.publish pureEnv (k, args) n.followers.slots.length).2.map
          (fun e => NetEvent.toFollower e.1 k args)) :=
      List.mem_map.mpr ⟨(F, (k, args)), hmem, rfl⟩
    cases hg : mapGet n.publishers k with
    | none => simpa [Network.publish, hg] using hmap
    | some pub =>
        simp only [Network.publish, hg]
        exact List.mem_append_right _ hmap

/-- Witness for C2: a network with no channels and follower 4; publishing to
key 0 creates nothing, logs only follower events, and notifies 4. -/
theorem network_publish_absent_key_witness :
    ((Network.mk [] ⟨[some 4]⟩).publish 0 (9 : Nat)).1.publishers = []
    ∧ (∀ e ∈ ((Network.mk [] ⟨[some 4]⟩).publish 0 (9 : Nat)).2,
        ∃ F, e = NetEvent.toFollower F 0 9)
    ∧ NetEvent.toFollower 4 0 9 ∈ ((Network.mk [] ⟨[some 4]⟩).publish 0 (9 : Nat)).2 := by
  have h := network_publish_absent_key (Network.mk [] ⟨[some 4]⟩) 0 (9 : Nat)
  exact ⟨(h.1 (by decide)).1, (h.1 (by decide)).2, h.2 4 (by decide)⟩

/-- C7: `Network.clear(k1)` empties exactly `k1`'s channel: `k2`'s channel
(`k1 ≠ k2`) and the followers are untouched, so a publish to `k2` afterwards
produces the same invocations as before the clear. -/
theorem network_clear_frame (n : Network) (k1 k2 : Nat) (args : α)
    (h : k1 ≠ k2) :
    mapGet (n.clear k1).publishers k2 = mapGet n.publishers k2
    ∧ (n.clear k1).followers = n.followers
    ∧ (∀ pub, mapGet n.publishers k1 = some pub →
        mapGet (n.clear k1).publishers k1 = some pub.clear)
    ∧ ((n.clear k1).publish k2 args).2 = (n.publish k2 args).2 := by
  have h1 : mapGet (n.clear k1).publishers k2 = mapGet n.publishers k2 := by
    cases hg1 : mapGet n.publishers k1 with
    | none => simp [Network.clear, hg1]
    | some pub => simp [Network.clear, hg1, mapGet_mapSet_ne _ _ _ _ h]
  have h2 : (n.clear k1).followers = n.followers := by
    cases hg1 : mapGet n.publishers k1 with
    | none => simp [Network.clear, hg1]
    | some pub => simp [Network.clear, hg1]
  refine ⟨h1, h2, ?_, ?_⟩
  · intro pub hg1
    simp [Network.clear, hg1, mapGet_mapSet_self]
  · cases hg2 : mapGet n.publishers k2 with
    | none => simp [Network.publish, h1, h2, hg2]
    | some pub2 => simp [Network.publish, h1, h2, hg2]

/-- Witness for C7: keys 1 and 2 with subscribers 3 and 5 and follower 6;
clearing key 1 leaves key 2's channel, the followers, and the result of a
publish to key 2 unchanged. -/
theorem network_clear_frame_witness :
    mapGet ((Network.mk [(1, ⟨[some 3]⟩), (2, ⟨[some 5]⟩)] ⟨[some 6]⟩).clear 1).publishers 2 =
      mapGet (Network.mk [(1, ⟨[some 3]⟩), (2, ⟨[some 5]⟩)] ⟨[some 6]⟩).publishers 2
    ∧ ((Network.mk [(1, ⟨[some 3]⟩), (2, ⟨[some 5]⟩)] ⟨[some 6]⟩).clear 1).followers =
        (Network.mk [(1, ⟨[some 3]⟩), (2, ⟨[some 5]⟩)] ⟨[some 6]⟩).followers
    ∧ (∀ pub,
        mapGet (Network.mk [(1, ⟨[some 3]⟩), (2, ⟨[some 5]⟩)] ⟨[some 6]⟩).publishers 1 = some pub →
        mapGet ((Network.mk [(1, ⟨[some 3]⟩), (2, ⟨[some 5]⟩)] ⟨[some 6]⟩).clear 1).publishers 1 =
          some pub.clear)
    ∧ (((Network.mk [(1, ⟨[some 3]⟩), (2, ⟨[some 5]⟩)] ⟨[some 6]⟩).clear 1).publish 2 (0 : Nat)).2 =
        ((Network.mk [(1, ⟨[some 3]⟩), (2, ⟨[some 5]⟩)] ⟨[some 6]⟩).publish 2 (0 : Nat)).2 :=
  network_clear_frame (Network.mk [(1, ⟨[some 3]⟩), (2, ⟨[some 5]⟩)] ⟨[some 6]⟩) 1 2 (0 : Nat)
    (by decide)

/-- C3: on one `Network.publish(k, args)` and one `Client.set(k, v)`, a
per-key subscriber `S` registered on `k` is invoked strictly before every
invocation of a follower `F`: in the invocation log every index of `S`'s
event precedes every index of `F`'s event, and both events occur. -/
theorem subscriber_before_follower (n : Network) (cl : Client α) (k S F : Nat)
    (args v : α) (pub : Publisher) (st : Store α)
    (hpub : mapGet n.publishers k = some pub) (hS : pub.has S = true)
    (hF : n.followers.has F = true)
    (hst : mapGet cl.stores k = some st) (hS2 : st.publisher.has S = true)
    (hF2 : cl.followers.has F = true) :
    ((∀ i j : Nat, (n.publish k args).2[i]? = some (NetEvent.toSub S args) →
        (n.publish k args).2[j]? = some (NetEvent.toFollower F k args) → i < j)
      ∧ (∃ i : Nat, (n.publish k args).2[i]? = some (NetEvent.toSub S args))
      ∧ (∃ j : Nat, (n.publish k args).2[j]? = some (NetEvent.toFollower F k args)))
    ∧ ((∀ i j : Nat, (cl.set k v).2[i]? = some (NetEvent.toSub S v) →
        (cl.set k v).2[j]? = some (NetEvent.toFollower F k v) → i < j)
      ∧ (∃ i : Nat, (cl.set k v).2[i]? = some (NetEvent.toSub S v))
      ∧ (∃ j : Nat, (cl.set k v).2[j]? = some (NetEvent.toFollower F k v))) := by
  constructor
  · have hlog : (n.publish k args).2 =
        ((pub.publish pureEnv args pub.slots.length).2.map
            (fun e => NetEvent.toSub e.1 e.2))
          ++ ((n.followers.publish pureEnv (k, args) n.followers.slots.length).2.map
            (fun e => NetEvent.toFollower e.1 k args)) := by
      simp [Network.publish, hpub]
    rw [hlog]
    refine append_order_mem _ _ _ _ ?_ ?_ ?_ ?_
    · intro e he
      obtain ⟨ev, _, rfl⟩ := List.mem_map.mp he
      simp
    · intro e he
      obtain ⟨ev, _, rfl⟩ := List.mem_map.mp he
      simp
    · exact List.mem_map.mpr ⟨(S, args), mem_pure_publish_log pub S args hS, rfl⟩
    · exact List.mem_map.mpr
        ⟨(F, (k, args)), mem_pure_publish_log n.followers F (k, args) hF, rfl⟩
  · have hlog : (cl.set k v).2 =
        ((st.publisher.publish pureEnv v st.publisher.slots.length).2.map
            (fun e => NetEvent.toSub e.1 e.2))
          ++ ((cl.followers.publish pureEnv (k, v) cl.followers.slots.length).2.map
            (fun e => NetEvent.toFollower e.1 k v)) := by
      simp [Client.set, mapHas, hst, Store.set]
    rw [hlog]
    refine append_order_mem _ _ _ _ ?_ ?_ ?_ ?_
    · intro e he
      obtain ⟨ev, _, rfl⟩ := List.mem_map.mp he
      simp
    · intro e he
      obtain ⟨ev, _, rfl⟩ := List.mem_map.mp he
      simp
    · exact List.mem_map.mpr ⟨(S, v), mem_pure_publish_log st.publisher S v hS2, rfl⟩
    · exact List.mem_map.mpr
        ⟨(F, (k, v)), mem_pure_publish_log cl.followers F (k, v) hF2, rfl⟩

/-- Witness for C3: subscriber 1 on key 0 and follower 2, on both a network
publish and a client set. -/
theorem subscriber_before_follower_witness :
    ((∀ i j : Nat,
        ((Network.mk [(0, ⟨[some 1]⟩)] ⟨[some 2]⟩).publish 0 (5 : Nat)).2[i]? =
          some (NetEvent.toSub 1 5) →
        ((Network.mk [(0, ⟨[some 1]⟩)] ⟨[some 2]⟩).publish 0 (5 : Nat)).2[j]? =
          some (NetEvent.toFollower 2 0 5) → i < j)
      ∧ (∃ i : Nat, ((Network.mk [(0, ⟨[some 1]⟩)] ⟨[some 2]⟩).publish 0 (5 : Nat)).2[i]? =
          some (NetEvent.toSub 1 5))
      ∧ (∃ j : Nat, ((Network.mk [(0, ⟨[some 1]⟩)] ⟨[some 2]⟩).publish 0 (5 : Nat)).2[j]? =
          some (NetEvent.toFollower 2 0 5)))
    ∧ ((∀ i j : Nat,
        ((Client.mk [(0, Store.mk ⟨[some 1]⟩ none)] ⟨[some 2]⟩).set 0 (6 : Nat)).2[i]? =
          some (NetEvent.toSub 1 6) →
        ((Client.mk [(0, Store.mk ⟨[some 1]⟩ none)] ⟨[some 2]⟩).set 0 (6 : Nat)).2[j]? =
          some (NetEvent.toFollower 2 0 6) → i < j)
      ∧ (∃ i : Nat,
          ((Client.mk [(0, Store.mk ⟨[some 1]⟩ none)] ⟨[some 2]⟩).set 0 (6 : Nat)).2[i]? =
            some (NetEvent.toSub 1 6))
      ∧ (∃ j : Nat,
          ((Client.mk [(0, Store.mk ⟨[some 1]⟩ none)] ⟨[some 2]⟩).set 0 (6 : Nat)).2[j]? =
            some (NetEvent.toFollower 2 0 6))) :=
  subscriber_before_follower (Network.mk [(0, ⟨[some 1]⟩)] ⟨[some 2]⟩)
    (Client.mk [(0, Store.mk ⟨[some 1]⟩ none)] ⟨[some 2]⟩) 0 1 2 (5 : Nat) (6 : Nat)
    ⟨[some 1]⟩ (Store.mk ⟨[some 1]⟩ none)
    (by decide) (by decide) (by decide) (by decide) (by decide) (by decide)

/-- C4: a key never `set` reads as the canonical unset result (`none`), also
when a subscriber was registered on it first — starting from a fresh client,
any sequence of calls that never sets `k` leaves `get(k) = none`; after
`set(k, v)` a `get(k)` returns `v`, also when the `set` just created the cell
(it is initialized directly with `v`); and the `set` notifies every
registered follower with `(k, v)`. -/
theorem cell_unset_then_set (k : Nat) (ops : List (COp α)) (cl : Client α)
    (v : α) (F : Nat)
    (hops : ∀ op ∈ ops, op.setsKey k = false) (hF : cl.followers.has F = true) :
    (runCOps Client.empty ops).get k = none
    ∧ (cl.set k v).1.get k = some v
    ∧ NetEvent.toFollower F k v ∈ (cl.set k v).2 := by
  refine ⟨client_get_runCOps_none k ops Client.empty rfl hops,
    client_get_set_self cl k v, ?_⟩
  have hmap : NetEvent.toFollower F k v ∈
      ((cl.followers.publish pureEnv (k, v) cl.followers.slots.length).2.map
        (fun e => NetEvent.toFollower e.1 k v)) :=
    List.mem_map.mpr ⟨(F, (k, v)), mem_pure_publish_log cl.followers F (k, v) hF, rfl⟩
  cases hg : mapGet cl.stores k with
  | none =>
      simp only [Client.set, mapHas, hg]
      exact List.mem_append_right _ hmap
  | some st =>
      simp only [Client.set, mapHas, hg]
      exact List.mem_append_right _ hmap

/-- Witness for C4: subscribing on key 0 and setting key 2 keeps key 0 unset;
setting key 0 to 7 on a client with a cell at key 0 and follower 4 yields
`get 0 = 7` and notifies the follower. -/
theorem cell_unset_then_set_witness :
    (runCOps Client.empty [COp.sub 0 1, COp.set 2 (9 : Nat)]).get 0 = none
    ∧ ((Client.mk [(0, Store.mk ⟨[]⟩ (some 3))] ⟨[some 4]⟩).set 0 (7 : Nat)).1.get 0 = some 7
    ∧ NetEvent.toFollower 4 0 7 ∈
        ((Client.mk [(0, Store.mk ⟨[]⟩ (some 3))] ⟨[some 4]⟩).set 0 (7 : Nat)).2 :=
  cell_unset_then_set 0 [COp.sub 0 1, COp.set 2 (9 : Nat)]
    (Client.mk [(0, Store.mk ⟨[]⟩ (some 3))] ⟨[some 4]⟩) (7 : Nat) 4
    (by decide) (by decide)

end Pubcrawl
